import Mathlib

/-!
A shallow embedding of the Origin messaging conversation engine
(`src/messaging.js`, the `Messaging` class) and proofs about its
key handling, message codec and log-ingestion behaviour.

Modelling conventions:
* JavaScript strings are sequences of characters, modelled as `List Char`
  (written `JStr`); `slice`, `substr`, `includes`, `split` become the
  corresponding list operations.
* External library primitives (CryptoJS AES-CBC and SHA-1, the ECIES
  wrap, the JSON built-ins, web3 address utilities) are parameters,
  collected in the `JsLib` structure; theorems that need a law about a
  primitive (for example that AES decryption inverts AES encryption with
  the same key) take it as an explicit hypothesis.
* A JavaScript number field that may hold `undefined` is an `Option Int`;
  `undefined + 1` is `NaN` (`jsAddOne none = none`) and `x != NaN` is
  always true (`jsNeq`), exactly as in the language.
* Network and event effects become explicit outputs: functions return the
  posts they issue (`Post`), the events they emit (`Event`) and the bulk
  reloads they trigger, instead of performing them.
-/

abbrev JStr := List Char

def jstr (s : String) : JStr := s.data

/-- JS addition of 1 to a possibly-`undefined` number field:
`undefined + 1` evaluates to `NaN`, modelled as `none`. -/
def jsAddOne : Option Int → Option Int
  | none => none
  | some n => some (n + 1)

/-- JS `!=` between a number and a possibly-`NaN` value: every comparison
with `NaN` is unequal, so `!=` against `none` is `true`. -/
def jsNeq (m : Int) : Option Int → Bool
  | none => true
  | some n => decide (m ≠ n)

/-- JSON values (and the plain JS objects fed to the Ajv validator).
Numbers are integers: every number the engine writes is `Date.now()` or a
log index. Object fields are kept in insertion order, as JS does. -/
inductive Json where
  | str (s : JStr)
  | num (n : Int)
  | bool (b : Bool)
  | null
  | arr (elems : List Json)
  | obj (fields : List (JStr × Json))

/-- Property read on a JS object: the value stored under `key`. -/
def getField : List (JStr × Json) → JStr → Option Json
  | [], _ => none
  | (k, v) :: rest, key => if k = key then some v else getField rest key

/-- Property write on a JS object: replace in place when the key exists
(JS keeps the original position), append otherwise. -/
def setField : List (JStr × Json) → JStr → Json → List (JStr × Json)
  | [], key, v => [(key, v)]
  | (k, w) :: rest, key, v =>
      if k = key then (key, v) :: rest else (k, w) :: setField rest key v

def isStr : Json → Bool
  | .str _ => true
  | _ => false

def isNum : Json → Bool
  | .num _ => true
  | _ => false

def isArr : Json → Bool
  | .arr _ => true
  | _ => false

def isStringArray : Json → Bool
  | .arr elems => elems.all isStr
  | _ => false

/-- The `decryption` subschema of MESSAGE_FORMAT: an object with required
`keys` (array of strings) and `roomId` (string). -/
def validDecryption : Json → Bool
  | .obj fields =>
      (match getField fields (jstr ("keys")) with
       | some v => isStringArray v
       | none => false) &&
      (match getField fields (jstr ("roomId")) with
       | some v => isStr v
       | none => false)
  | _ => false

/-- An optional property of an Ajv schema: absent is fine, present must
satisfy the property's subschema. -/
def optionalField (fields : List (JStr × Json)) (key : JStr) (p : Json → Bool) : Bool :=
  match getField fields key with
  | none => true
  | some v => p v

/-- `validateMessage`, the Ajv validator compiled from MESSAGE_FORMAT:
an object with required numeric `created`, optional string `content`,
optional array `media`, optional `decryption` subobject; unknown extra
fields are tolerated. -/
def validateMessage : Json → Bool
  | .obj fields =>
      (match getField fields (jstr ("created")) with
       | some v => isNum v
       | none => false) &&
      optionalField fields (jstr ("content")) isStr &&
      optionalField fields (jstr ("media")) isArr &&
      optionalField fields (jstr ("decryption")) validDecryption
  | _ => false

/-- The external library surface the engine calls, as function parameters:
* `aesEncrypt pt key ivStr`: `CryptoJS.AES.encrypt(pt, key, {iv}).toString()`;
  the key slot is `Option` because the source reads `convObj.keys[0]`,
  which is `undefined` on an empty key list;
* `aesDecryptUtf8 emsg key ivStr`: AES decryption followed by the UTF-8
  read, `none` when the read throws;
* `shaB64 s`: `CryptoJS.enc.Base64.stringify(CryptoJS.SHA1(s))`;
* `ecEncrypt pub pt` / `ecDecrypt priv ct`: the ECIES wrap, `none` when
  unwrapping throws;
* `jsonStringify` / `jsonParse`: the JSON built-ins, `none` when parsing
  throws;
* `isAddress` / `toChecksumAddress`: web3 address utilities. -/
structure JsLib where
  aesEncrypt : JStr → Option JStr → JStr → JStr
  aesDecryptUtf8 : JStr → JStr → JStr → Option JStr
  shaB64 : JStr → JStr
  ecEncrypt : JStr → JStr → JStr
  ecDecrypt : JStr → JStr → Option JStr
  jsonStringify : Json → JStr
  jsonParse : JStr → Option Json
  isAddress : JStr → Bool
  toChecksumAddress : JStr → JStr

def COULD_NOT_DECRYPT : JStr := jstr ("Could not decrypt")

def INVALID_MESSAGE_OBJECT : JStr := jstr ("Invalid message object")

/-- `decryptEmsg(ivStr, msg, key)`: AES-decrypt, read as UTF-8; if the text
is truthy and longer than 6 characters, split off the last 6 as the tag
(`substr(-6)`), keep the prefix (`slice(0, -6)`), and accept exactly when
the tag equals the first 6 base64 characters of SHA-1 of the prefix.
Every other outcome returns `undefined` (`none`). -/
def decryptEmsg (L : JsLib) (ivStr msg key : JStr) : Option JStr :=
  match L.aesDecryptUtf8 msg key ivStr with
  | none => none
  | some outText =>
      if outText ≠ [] ∧ 6 < outText.length then
        let verifyText := outText.take (outText.length - 6)
        let shaCheck := outText.drop (outText.length - 6)
        if shaCheck = (L.shaB64 verifyText).take 6 then some verifyText
        else none
      else none

/-- Result of `decryptMessage`: either `{content}` or `{error}`. -/
inductive DecryptResult where
  | content (msg : Json)
  | error (e : JStr)

/-- A decrypted (or still-encrypted) payload surfaced to the caller. -/
inductive MsgPayload where
  | plain (msg : Json)
  | cipher (emsg : JStr)

/-- The object `toMessage` builds and the `msg` / `emsg` events carry. -/
structure DecMessage where
  msg : MsgPayload
  room_id : JStr
  index : Int
  address : JStr
  hash : JStr

/-- Per-room state stored in `this.convs`. `lastConversationIndex` and
`messageCount` start out absent (`none`). The field `conversationIndex`
is read by `onMessageUpdate` but assigned nowhere in the source, so it is
`none` in every reachable state; it is kept as a field so that the read
of an undefined property is visible in the embedding. -/
structure ConvObj where
  keys : List JStr
  messages : List DecMessage
  lastConversationIndex : Option Int
  messageCount : Option Int
  conversationIndex : Option Int

/-- The `for (const key of convObj.keys)` loop body of `decryptMessage`:
first key that passes `decryptEmsg` wins; its plaintext is JSON-parsed
(parse failure or schema failure is `Invalid message object`); no key
working is `Could not decrypt`. -/
def decryptLoop (L : JsLib) (i emsg : JStr) : List JStr → DecryptResult
  | [] => .error COULD_NOT_DECRYPT
  | key :: rest =>
      match decryptEmsg L i emsg key with
      | some buffer =>
          match L.jsonParse buffer with
          | none => .error INVALID_MESSAGE_OBJECT
          | some obj =>
              if validateMessage obj then .content obj
              else .error INVALID_MESSAGE_OBJECT
      | none => decryptLoop L i emsg rest

/-- `decryptMessage(content, convObj)` reads `content.i` and `content.emsg`
and tries each room key in insertion order. -/
def decryptMessage (L : JsLib) (i emsg : JStr) (convObj : ConvObj) : DecryptResult :=
  decryptLoop L i emsg convObj.keys

/-- One element of a `keys` envelope's `keys` array. -/
structure KeyEntry where
  ekey : JStr
  maddress : JStr
  address : JStr

/-- A content envelope: the tagged union on `content.type`; unknown types
fall into `other` and are ignored. -/
inductive Content where
  | keys (address : JStr) (entries : List KeyEntry)
  | msg (address : JStr) (i : JStr) (emsg : JStr)
  | other

/-- One iteration of the `processKeys` loop: entries addressed to this
account are unwrapped (`ecDecrypt`, exceptions ignored); a truthy key not
already present is pushed. -/
def processKeysStep (L : JsLib) (account_key privateKey : JStr)
    (convObj : ConvObj) (v : KeyEntry) : ConvObj :=
  if v.address = account_key then
    match L.ecDecrypt privateKey v.ekey with
    | some key =>
        if key ≠ [] ∧ key ∉ convObj.keys then
          { convObj with keys := convObj.keys ++ [key] }
        else convObj
    | none => convObj
  else convObj

/-- `processKeys(content, convObj)`: fold the loop body over the
envelope's entries. -/
def processKeys (L : JsLib) (account_key privateKey : JStr)
    (entries : List KeyEntry) (convObj : ConvObj) : ConvObj :=
  entries.foldl (processKeysStep L account_key privateKey) convObj

/-- Which callback (if any) `processContent` fires for an envelope. -/
inductive ContentOutcome where
  | silent
  | message (msg : Json) (address : JStr)
  | encrypted (emsg : JStr) (address : JStr)

/-- `processContent(content, convObj, onMessage, onEncrypted)`: a `keys`
envelope updates the room's key list and fires nothing; a `msg` envelope
fires `onEncrypted` on `Could not decrypt`, nothing on
`Invalid message object`, and `onMessage` on a decrypted content. -/
def processContent (L : JsLib) (account_key privateKey : JStr)
    (content : Content) (convObj : ConvObj) : ConvObj × ContentOutcome :=
  match content with
  | .keys _ entries =>
      (processKeys L account_key privateKey entries convObj, .silent)
  | .msg address i emsg =>
      match decryptMessage L i emsg convObj with
      | .error e =>
          if e = COULD_NOT_DECRYPT then (convObj, .encrypted emsg address)
          else (convObj, .silent)
      | .content msg => (convObj, .message msg address)
  | .other => (convObj, .silent)

/-- `getMessageId(roomId, container)`: `roomId + "." + conversationIndex`. -/
def getMessageId (roomId : JStr) (conversationIndex : Int) : JStr :=
  roomId ++ ('.' :: (toString conversationIndex).data)

/-- `toMessage(msg, roomId, container, address)`. -/
def toMessage (msg : MsgPayload) (roomId : JStr) (conversationIndex : Int)
    (address : JStr) : DecMessage :=
  { msg := msg, room_id := roomId, index := conversationIndex,
    address := address, hash := getMessageId roomId conversationIndex }

/-- Events the engine emits while ingesting. -/
inductive Event where
  | msg (m : DecMessage)
  | emsg (m : DecMessage)

/-- The shared callback pair passed to `processContent` by both ingestion
paths: `onMessage` pushes the decrypted message onto `convObj.messages`
and emits `msg`; `onEncrypted` emits `emsg` without pushing. -/
def applyOutcome (convObj : ConvObj) (roomId : JStr) (conversationIndex : Int) :
    ContentOutcome → ConvObj × List Event
  | .silent => (convObj, [])
  | .message m address =>
      let message := toMessage (.plain m) roomId conversationIndex address
      ({ convObj with messages := convObj.messages ++ [message] }, [.msg message])
  | .encrypted e address =>
      (convObj, [.emsg (toMessage (.cipher e) roomId conversationIndex address)])

/-- A record of the server's per-room log, as the bulk fetch returns it. -/
structure LogEntry where
  conversationId : JStr
  conversationIndex : Int
  content : Content

/-- Accumulator for a bulk load: the room object being built (mutated in
place in the source) and the events emitted so far. -/
structure IngestState where
  conv : ConvObj
  events : List Event

/-- The fresh room object `{keys: [], messages: []}` that `getRoom`
installs before fetching; the index fields are undefined. -/
def freshConv : ConvObj :=
  { keys := [], messages := [], lastConversationIndex := none,
    messageCount := none, conversationIndex := none }

/-- One iteration of the `messages.forEach` loop in `getRoom`: run the
envelope through `processContent` with the shared callbacks, then set
`lastConversationIndex = entry.conversationIndex` and
`messageCount = entry.conversationIndex + 1`. -/
def ingestEntry (L : JsLib) (account_key privateKey roomId : JStr)
    (st : IngestState) (entry : LogEntry) : IngestState :=
  let pc := processContent L account_key privateKey entry.content st.conv
  let ao := applyOutcome pc.1 roomId entry.conversationIndex pc.2
  { conv := { ao.1 with lastConversationIndex := some entry.conversationIndex,
                        messageCount := some (entry.conversationIndex + 1) },
    events := st.events ++ ao.2 }

/-- The whole `messages.forEach` of `getRoom`, starting from the fresh
room object. -/
def bulkIngest (L : JsLib) (account_key privateKey roomId : JStr)
    (log : List LogEntry) : IngestState :=
  log.foldl (ingestEntry L account_key privateKey roomId)
    { conv := freshConv, events := [] }

def updateConvs (convs : JStr → Option ConvObj) (roomId : JStr) (c : ConvObj) :
    JStr → Option ConvObj :=
  fun r => if r = roomId then some c else convs r

/-- `getRoom(roomId)`: replace `this.convs[roomId]` with a fresh room
object, fetch the log (`log` is the fetched array), and ingest every
entry into that object. The result is the new `this.convs` together with
the events emitted. -/
def getRoom (L : JsLib) (account_key privateKey : JStr)
    (convs : JStr → Option ConvObj) (roomId : JStr) (log : List LogEntry) :
    (JStr → Option ConvObj) × List Event :=
  let st := bulkIngest L account_key privateKey roomId log
  (updateConvs convs roomId st.conv, st.events)

/-- A frame delivered on the live stream; `content` and `conversationId`
may be absent, as the guard in `onMessageUpdate` anticipates. -/
structure StreamEntry where
  content : Option Content
  conversationId : Option JStr
  conversationIndex : Int

/-- What a call to `onMessageUpdate` does: the new `this.convs`, the
events emitted, and the rooms for which it invoked `getRoom` (a bulk
load it fires and forgets). -/
structure UpdateResult where
  convs : JStr → Option ConvObj
  events : List Event
  bulkLoads : List JStr

/-- `onMessageUpdate(entry)`: skip when `content` or `conversationId` is
falsy; bulk-load an unknown room; otherwise branch on
`conversationIndex != convObj.conversationIndex + 1` — note the source
reads `conversationIndex`, a field that is never assigned (the room
stores `lastConversationIndex`), so the right-hand side is
`undefined + 1 = NaN` and the test is `true` for every index. The taken
branch processes the entry and rewrites both index fields; the other
branch (commented "we are missing a message") bulk-reloads the room. -/
def onMessageUpdate (L : JsLib) (account_key privateKey : JStr)
    (convs : JStr → Option ConvObj) (entry : StreamEntry) : UpdateResult :=
  match entry.content, entry.conversationId with
  | some content, some conversationId =>
      if conversationId = [] then
        { convs := convs, events := [], bulkLoads := [] }
      else
        match convs conversationId with
        | none => { convs := convs, events := [], bulkLoads := [conversationId] }
        | some convObj =>
            if jsNeq entry.conversationIndex (jsAddOne convObj.conversationIndex) then
              let pc := processContent L account_key privateKey content convObj
              let ao := applyOutcome pc.1 conversationId entry.conversationIndex pc.2
              let conv3 :=
                { ao.1 with lastConversationIndex := some entry.conversationIndex,
                            messageCount := some (entry.conversationIndex + 1) }
              { convs := updateConvs convs conversationId conv3,
                events := ao.2, bulkLoads := [] }
            else
              { convs := convs, events := [], bulkLoads := [conversationId] }
  | _, _ => { convs := convs, events := [], bulkLoads := [] }

/-- JS string comparison (`Array.prototype.sort`'s default order):
lexicographic on the character sequences. -/
def jstrLt : JStr → JStr → Bool
  | [], [] => false
  | [], _ :: _ => true
  | _ :: _, [] => false
  | a :: as, b :: bs => if a < b then true else if b < a then false else jstrLt as bs

/-- `generateRoomId(converser1, converser2)`: checksum both, sort, join
with a dash. -/
def generateRoomId (L : JsLib) (converser1 converser2 : JStr) : JStr :=
  let k1 := L.toChecksumAddress converser1
  let k2 := L.toChecksumAddress converser2
  if jstrLt k2 k1 then k2 ++ ('-' :: k1) else k1 ++ ('-' :: k2)

/-- `isRoomId(str)`: the string contains a dash. -/
def isRoomId (s : JStr) : Bool := s.contains '-'

/-- `getRecipients(key)`: split on the dash. -/
def getRecipients (key : JStr) : List JStr := key.splitOn '-'

/-- A registry entry as `getRegisteredKey` returns it (the fields
`startConv` reads: the messaging address and public key). -/
structure RegEntry where
  address : JStr
  pub_key : JStr

/-- Engine identity and external collaborators of the send path:
`account_key` is the wallet address, `accountAddress` and
`accountPublicKey` the derived messaging identity; `registry` is the
resolved `getRegisteredKey` lookup; `postOk` is the key server's answer
(status 200?) to a message POST. -/
structure Env where
  account_key : JStr
  accountAddress : JStr
  accountPublicKey : JStr
  registry : JStr → Option RegEntry
  postOk : JStr → Option Int → Content → Bool

/-- A POST of `content` to `/messages/<conversationId>/<conversationIndex>`. -/
structure Post where
  conversationId : JStr
  conversationIndex : Option Int
  content : Content

/-- `addRoomMsg(conversationId, conversationIndex, content)`: POST and
report whether the server answered 200. -/
def addRoomMsg (E : Env) (conversationId : JStr) (conversationIndex : Option Int)
    (content : Content) : Bool × List Post :=
  (E.postOk conversationId conversationIndex content,
   [{ conversationId := conversationId, conversationIndex := conversationIndex,
      content := content }])

/-- What `startConv` returns and does: the room object (or `undefined`),
the posts it issued, and the events it emitted (it emits none). -/
structure ConvResult where
  conv : Option ConvObj
  posts : List Post
  events : List Event

/-- `startConv(remoteEthAddress)`: no registry entry returns `undefined`
at once; otherwise, when the room has no keys yet, generate a fresh
symmetric key, wrap it for both participants, POST the `keys` envelope
at `convObj.messageCount`, and on success push the key locally and bump
`messageCount`. `encryptKey` stands for the `cryptoRandomString` draw. -/
def startConv (L : JsLib) (E : Env) (convs : JStr → Option ConvObj)
    (remoteEthAddress encryptKey : JStr) : ConvResult :=
  match E.registry remoteEthAddress with
  | none => { conv := none, posts := [], events := [] }
  | some entry =>
      let roomId := generateRoomId L E.account_key remoteEthAddress
      let convObj := (convs roomId).getD
        { keys := [], messages := [], lastConversationIndex := none,
          messageCount := some 0, conversationIndex := none }
      if convObj.keys.length = 0 then
        let conversationIndex := convObj.messageCount
        let keysContent : Content := .keys E.account_key
          [ { ekey := L.ecEncrypt E.accountPublicKey encryptKey,
              maddress := E.accountAddress, address := E.account_key },
            { ekey := L.ecEncrypt entry.pub_key encryptKey,
              maddress := entry.address, address := remoteEthAddress } ]
        let res := addRoomMsg E roomId conversationIndex keysContent
        if res.1 then
          { conv := some { convObj with keys := convObj.keys ++ [encryptKey],
                                        messageCount := jsAddOne convObj.messageCount },
            posts := res.2, events := [] }
        else { conv := some convObj, posts := res.2, events := [] }
      else { conv := some convObj, posts := [], events := [] }

/-- The `{type: "msg", emsg, i, address}` envelope `createEncrypted`
returns. -/
structure EncMsg where
  emsg : JStr
  i : JStr
  address : JStr

def EncMsg.toContent (e : EncMsg) : Content := .msg e.address e.i e.emsg

/-- `Object.assign({}, x)`: own enumerable properties of `x` copied into
a fresh object; primitives contribute nothing, arrays and strings their
indexed elements. -/
def jsAssignClone : Json → List (JStr × Json)
  | .obj fields => fields
  | .arr elems => elems.enum.map (fun p => ((toString p.1).data, p.2))
  | .str s => s.enum.map (fun p => ((toString p.1).data, Json.str [p.2]))
  | _ => []

/-- A string `messageObj` is wrapped as `{content: messageObj}`. -/
def coerceMessageObj : Json → Json
  | .str s => .obj [(jstr ("content"), .str s)]
  | m => m

/-- The message object `createEncrypted` builds before validating: a copy
of the caller's object with `created` set to the current time. -/
def injectCreated (messageObj : Json) (now : Int) : Json :=
  .obj (setField (jsAssignClone (coerceMessageObj messageObj)) (jstr ("created"))
    (.num now))

/-- `createEncrypted(address, convObj, messageObj)`: throw on a malformed
address; copy the message and stamp `created = Date.now()`; return
`undefined` when it fails the schema; otherwise serialize it, append the
first 6 base64 characters of its SHA-1, AES-encrypt under
`convObj.keys[0]` with a random IV (`ivStr` stands for the drawn IV in
base64), and return the `msg` envelope. -/
def createEncrypted (L : JsLib) (account_key address : JStr) (convObj : ConvObj)
    (messageObj : Json) (now : Int) (ivStr : JStr) : Except JStr (Option EncMsg) :=
  if L.isAddress address = false then
    .error (address ++ jstr (" is not a valid Ethereum address"))
  else
    let message := injectCreated messageObj now
    if validateMessage message = false then .ok none
    else
      let messageStr := L.jsonStringify message
      let shaSub := (L.shaB64 messageStr).take 6
      let encmsg := L.aesEncrypt (messageStr ++ shaSub) convObj.keys.head? ivStr
      .ok (some { emsg := encmsg, i := ivStr, address := account_key })

/-- What `sendConvMessage` returns and does. -/
structure SendResult where
  ret : Option JStr
  posts : List Post
  events : List Event

/-- `sendConvMessage(roomIdOrAddress, messageObj)`: refuse reentrant
sends; resolve the argument to a remote address and room id (throwing on
a malformed address); checksum; `startConv`; returning `undefined` when
there is no room; encrypt; POST the envelope at `convObj.messageCount`;
return the room id. `sendingMessage` is the `_sending_message` flag. -/
def sendConvMessage (L : JsLib) (E : Env) (convs : JStr → Option ConvObj)
    (sendingMessage : Bool) (roomIdOrAddress : JStr) (messageObj : Json)
    (now : Int) (ivStr encryptKey : JStr) : Except JStr SendResult :=
  if sendingMessage then .ok { ret := none, posts := [], events := [] }
  else
    let resolved : Except JStr (JStr × JStr) :=
      if isRoomId roomIdOrAddress then
        match (getRecipients roomIdOrAddress).find? (fun a => decide (a ≠ E.account_key)) with
        | some r => .ok (r, roomIdOrAddress)
        | none => .error (jstr ("invalid address"))
      else if L.isAddress roomIdOrAddress then
        .ok (roomIdOrAddress, generateRoomId L E.account_key roomIdOrAddress)
      else .error (roomIdOrAddress ++ jstr (" is not a valid Ethereum address"))
    match resolved with
    | .error e => .error e
    | .ok pair =>
        let remoteEthAddress := L.toChecksumAddress pair.1
        let roomId := pair.2
        let sc := startConv L E convs remoteEthAddress encryptKey
        match sc.conv with
        | none => .ok { ret := none, posts := sc.posts, events := [] }
        | some convObj =>
            match createEncrypted L E.account_key remoteEthAddress convObj
                messageObj now ivStr with
            | .error e => .error e
            | .ok none => .ok { ret := none, posts := sc.posts, events := [] }
            | .ok (some enc) =>
                let res := addRoomMsg E roomId convObj.messageCount enc.toContent
                .ok { ret := some roomId, posts := sc.posts ++ res.2, events := [] }

/-- The out-of-band envelope: the `msg` envelope extended with `to`. -/
structure OOBMessage where
  emsg : JStr
  i : JStr
  address : JStr
  «to» : JStr

/-- What `createOutOfBandMessage` returns and does. -/
structure OOBResult where
  ret : Option OOBMessage
  posts : List Post
  events : List Event

/-- `createOutOfBandMessage(address, messageObj)`: validate and checksum
the recipient, `startConv`, encrypt, and return the envelope extended
with `to` instead of posting it. The source sets
`const myAddress = this.web3.utils.toChecksumAddress(remoteEthAddress)`
and `encryptedContent.to = myAddress`: despite its name, the variable
holds the checksummed *recipient* address. -/
def createOutOfBandMessage (L : JsLib) (E : Env) (convs : JStr → Option ConvObj)
    (address : JStr) (messageObj : Json) (now : Int) (ivStr encryptKey : JStr) :
    Except JStr OOBResult :=
  if L.isAddress address = false then
    .error (address ++ jstr (" is not a valid Ethereum address"))
  else
    let remoteEthAddress := L.toChecksumAddress address
    let sc := startConv L E convs remoteEthAddress encryptKey
    match sc.conv with
    | none => .ok { ret := none, posts := sc.posts, events := [] }
    | some convObj =>
        match createEncrypted L E.account_key remoteEthAddress convObj
            messageObj now ivStr with
        | .error e => .error e
        | .ok none => .ok { ret := none, posts := sc.posts, events := [] }
        | .ok (some enc) =>
            let myAddress := L.toChecksumAddress remoteEthAddress
            .ok { ret := some { emsg := enc.emsg, i := enc.i,
                                address := enc.address, «to» := myAddress },
                  posts := sc.posts, events := [] }

/-- The key recovered from one `keys`-envelope entry by this account, if
any: the entry must be addressed to `account_key`, must unwrap, and the
result must be truthy. Characterizes which keys `processKeys` can add. -/
def recoverKey (L : JsLib) (account_key privateKey : JStr) (v : KeyEntry) :
    Option JStr :=
  if v.address = account_key then
    match L.ecDecrypt privateKey v.ekey with
    | some key => if key ≠ [] then some key else none
    | none => none
  else none

/-- The entries a content envelope carries (empty for `msg` and unknown
types). -/
def contentEntries : Content → List KeyEntry
  | .keys _ entries => entries
  | _ => []

/-- All keys this account recovers from one envelope. -/
def contentKeys (L : JsLib) (account_key privateKey : JStr) (c : Content) :
    List JStr :=
  (contentEntries c).filterMap (recoverKey L account_key privateKey)

/-- All keys this account recovers from a room log, in log order. -/
def logKeys (L : JsLib) (account_key privateKey : JStr) (log : List LogEntry) :
    List JStr :=
  (log.map (fun entry => contentKeys L account_key privateKey entry.content)).flatten

/-! Concrete instantiations of the external-library parameters and of the
engine state, used to evaluate the embedded code at explicit inputs. -/

/-- Library instance with inert primitives (nothing decrypts, JSON parsing
fails, every string is an address, checksumming is the identity). -/
def libTriv : JsLib :=
  { aesEncrypt := fun _ _ _ => []
    aesDecryptUtf8 := fun _ _ _ => none
    shaB64 := fun _ => []
    ecEncrypt := fun _ _ => []
    ecDecrypt := fun _ _ => none
    jsonStringify := fun _ => []
    jsonParse := fun _ => none
    isAddress := fun _ => true
    toChecksumAddress := fun s => s }

/-- Like `libTriv` but the ECIES unwrap returns the wrapped bytes. -/
def libEcho : JsLib := { libTriv with ecDecrypt := fun _ c => some c }

/-- Library instance whose AES decryption yields a correctly tagged
plaintext while JSON parsing still fails. -/
def libBadJson : JsLib :=
  { libTriv with
      aesDecryptUtf8 := fun _ _ _ => some (jstr ("1ABCDEF"))
      shaB64 := fun _ => jstr ("ABCDEF") }

/-- Library instance whose AES decryption yields a correctly tagged
plaintext `helloABCDEF`. -/
def libTagged : JsLib :=
  { libTriv with
      aesDecryptUtf8 := fun _ _ _ => some (jstr ("helloABCDEF"))
      shaB64 := fun _ => jstr ("ABCDEF") }

/-- The message object `{created: 7}`. -/
def msgW : Json := Json.obj [(jstr ("created"), Json.num 7)]

/-- Library instance under which encryption is the identity on the
plaintext and parsing returns `{created: 7}`: satisfies the round-trip
laws at that message. -/
def libRound : JsLib :=
  { libTriv with
      aesEncrypt := fun pt _ _ => pt
      aesDecryptUtf8 := fun c _ _ => some c
      shaB64 := fun _ => jstr ("ABCDEF")
      jsonStringify := fun _ => jstr ("m")
      jsonParse := fun _ => some msgW }

def addrA : JStr := jstr ("0xAAAA")

def addrB : JStr := jstr ("0xBBBB")

def roomA : JStr := jstr ("0xAAAA-0xBBBB")

/-- A room that has ingested the log up to index 5. -/
def convA : ConvObj :=
  { keys := [], messages := [], lastConversationIndex := some 5,
    messageCount := some 6, conversationIndex := none }

def convsA : JStr → Option ConvObj := fun r => if r = roomA then some convA else none

/-- A live entry for `roomA` with the stale index 3 (a duplicate of an
already ingested position). -/
def entryA : StreamEntry :=
  { content := some (Content.keys addrB []), conversationId := some roomA,
    conversationIndex := 3 }

/-- A room that has ingested the log up to index 1. -/
def convB : ConvObj :=
  { keys := [], messages := [], lastConversationIndex := some 1,
    messageCount := some 2, conversationIndex := none }

def convsB : JStr → Option ConvObj := fun r => if r = roomA then some convB else none

/-- A live entry for `roomA` replaying index 0. -/
def entryB : StreamEntry :=
  { content := some Content.other, conversationId := some roomA,
    conversationIndex := 0 }

/-- Engine whose registry knows only `addrB`. -/
def envAB : Env :=
  { account_key := addrA, accountAddress := jstr ("0xMA"),
    accountPublicKey := jstr ("PKA"),
    registry := fun r =>
      if r = addrB then some { address := jstr ("0xMB"), pub_key := jstr ("PKB") }
      else none,
    postOk := fun _ _ _ => true }

/-- Engine whose registry is empty. -/
def envNoReg : Env :=
  { account_key := addrA, accountAddress := jstr ("0xMA"),
    accountPublicKey := jstr ("PKA"), registry := fun _ => none,
    postOk := fun _ _ _ => true }

def convsEmpty : JStr → Option ConvObj := fun _ => none

/-- The result `createOutOfBandMessage` produces at the concrete inputs of
the out-of-band scenario. -/
def oobW : OOBResult :=
  match createOutOfBandMessage libTriv envAB convsEmpty addrB (Json.obj []) 5
      (jstr ("IV")) (jstr ("EK")) with
  | .ok r => r
  | .error _ => { ret := none, posts := [], events := [] }

/-- A keys envelope addressed only to the other participant. -/
def entriesOther : List KeyEntry :=
  [{ ekey := jstr ("E1"), maddress := jstr ("0xM2"), address := addrB }]

/-- A keys envelope announcing the same wrapped key twice to this account. -/
def entriesMine : List KeyEntry :=
  [{ ekey := jstr ("K1"), maddress := jstr ("0xM1"), address := addrA },
   { ekey := jstr ("K1"), maddress := jstr ("0xM1"), address := addrA }]

/-- A room holding one key. -/
def convOneKey : ConvObj :=
  { keys := [jstr ("K0")], messages := [], lastConversationIndex := none,
    messageCount := none, conversationIndex := none }

/-! Helper lemmas about the key store. -/

theorem processKeysStep_eq (L : JsLib) (ak pk : JStr) (convObj : ConvObj)
    (v : KeyEntry) :
    processKeysStep L ak pk convObj v =
      match recoverKey L ak pk v with
      | some key =>
          if key ∈ convObj.keys then convObj
          else { convObj with keys := convObj.keys ++ [key] }
      | none => convObj := by
  unfold processKeysStep recoverKey
  by_cases ha : v.address = ak
  · rw [if_pos ha, if_pos ha]
    cases hd : L.ecDecrypt pk v.ekey with
    | none => rfl
    | some key =>
        dsimp only
        by_cases hk : key ≠ []
        · rw [if_pos hk]
          dsimp only
          by_cases hmem : key ∈ convObj.keys
          · rw [if_pos hmem, if_neg (fun hc => hc.2 hmem)]
          · rw [if_neg hmem, if_pos ⟨hk, hmem⟩]
        · rw [if_neg hk, if_neg (fun hc => hk hc.1)]
  · rw [if_neg ha, if_neg ha]

theorem mem_processKeysStep (L : JsLib) (ak pk : JStr) (convObj : ConvObj)
    (v : KeyEntry) (k : JStr) :
    k ∈ (processKeysStep L ak pk convObj v).keys ↔
      k ∈ convObj.keys ∨ recoverKey L ak pk v = some k := by
  rw [processKeysStep_eq]
  cases hv : recoverKey L ak pk v with
  | none => simp
  | some key =>
      dsimp only
      by_cases hmem : key ∈ convObj.keys
      · rw [if_pos hmem]
        simp only [Option.some.injEq]
        constructor
        · exact fun h => Or.inl h
        · rintro (h | rfl)
          · exact h
          · exact hmem
      · rw [if_neg hmem]
        simp only [Option.some.injEq]
        constructor
        · intro h
          rcases List.mem_append.mp h with h | h
          · exact Or.inl h
          · exact Or.inr (List.mem_singleton.mp h).symm
        · rintro (h | rfl)
          · exact List.mem_append_left _ h
          · exact List.mem_append_right _ (List.mem_singleton_self key)

theorem mem_processKeys (L : JsLib) (ak pk : JStr) (entries : List KeyEntry)
    (convObj : ConvObj) (k : JStr) :
    k ∈ (processKeys L ak pk entries convObj).keys ↔
      k ∈ convObj.keys ∨ k ∈ entries.filterMap (recoverKey L ak pk) := by
  induction entries generalizing convObj with
  | nil => simp [processKeys]
  | cons v vs ih =>
      have hstep : processKeys L ak pk (v :: vs) convObj =
          processKeys L ak pk vs (processKeysStep L ak pk convObj v) := rfl
      rw [hstep, ih, mem_processKeysStep]
      cases hv : recoverKey L ak pk v with
      | none => simp [List.filterMap_cons, hv]
      | some a => simp [List.filterMap_cons, hv, eq_comm, or_assoc]

theorem processKeys_fixpoint (L : JsLib) (ak pk : JStr) (entries : List KeyEntry)
    (convObj : ConvObj)
    (h : ∀ k, k ∈ entries.filterMap (recoverKey L ak pk) → k ∈ convObj.keys) :
    processKeys L ak pk entries convObj = convObj := by
  induction entries with
  | nil => rfl
  | cons v vs ih =>
      have hstep : processKeysStep L ak pk convObj v = convObj := by
        rw [processKeysStep_eq]
        cases hv : recoverKey L ak pk v with
        | none => rfl
        | some a =>
            dsimp only
            have hmem : a ∈ convObj.keys := by
              refine h a ?_
              simp [List.filterMap_cons, hv]
            rw [if_pos hmem]
      have hrest : ∀ k, k ∈ vs.filterMap (recoverKey L ak pk) → k ∈ convObj.keys := by
        intro k hk
        refine h k ?_
        cases hv : recoverKey L ak pk v <;> simp [List.filterMap_cons, hv, hk]
      calc processKeys L ak pk (v :: vs) convObj
          = processKeys L ak pk vs (processKeysStep L ak pk convObj v) := rfl
        _ = processKeys L ak pk vs convObj := by rw [hstep]
        _ = convObj := ih hrest

theorem processKeys_idem (L : JsLib) (ak pk : JStr) (entries : List KeyEntry)
    (convObj : ConvObj) :
    processKeys L ak pk entries (processKeys L ak pk entries convObj) =
      processKeys L ak pk entries convObj := by
  refine processKeys_fixpoint L ak pk entries _ ?_
  intro k hk
  rw [mem_processKeys]
  exact Or.inr hk

theorem nodup_processKeysStep (L : JsLib) (ak pk : JStr) (convObj : ConvObj)
    (v : KeyEntry) (h : convObj.keys.Nodup) :
    (processKeysStep L ak pk convObj v).keys.Nodup := by
  rw [processKeysStep_eq]
  cases hv : recoverKey L ak pk v with
  | none => exact h
  | some key =>
      dsimp only
      by_cases hmem : key ∈ convObj.keys
      · rw [if_pos hmem]
        exact h
      · rw [if_neg hmem]
        refine List.nodup_append.mpr ⟨h, List.nodup_singleton key, ?_⟩
        intro a ha hb
        rw [List.mem_singleton] at hb
        subst hb
        exact hmem ha

theorem nodup_processKeys (L : JsLib) (ak pk : JStr) (entries : List KeyEntry)
    (convObj : ConvObj) (h : convObj.keys.Nodup) :
    (processKeys L ak pk entries convObj).keys.Nodup := by
  induction entries generalizing convObj with
  | nil => exact h
  | cons v vs ih => exact ih _ (nodup_processKeysStep L ak pk convObj v h)

theorem processKeys_filter_addressed (L : JsLib) (ak pk : JStr)
    (entries : List KeyEntry) (convObj : ConvObj) :
    processKeys L ak pk entries convObj =
      processKeys L ak pk (entries.filter (fun v => decide (v.address = ak))) convObj := by
  induction entries generalizing convObj with
  | nil => rfl
  | cons v vs ih =>
      by_cases ha : v.address = ak
      · have hf : (v :: vs).filter (fun v => decide (v.address = ak)) =
            v :: vs.filter (fun v => decide (v.address = ak)) := by
          simp [List.filter_cons, ha]
        rw [hf]
        calc processKeys L ak pk (v :: vs) convObj
            = processKeys L ak pk vs (processKeysStep L ak pk convObj v) := rfl
          _ = processKeys L ak pk (vs.filter (fun v => decide (v.address = ak)))
                (processKeysStep L ak pk convObj v) := ih _
      · have hstep : processKeysStep L ak pk convObj v = convObj := by
          unfold processKeysStep
          rw [if_neg ha]
        have hf : (v :: vs).filter (fun v => decide (v.address = ak)) =
            vs.filter (fun v => decide (v.address = ak)) := by
          simp [List.filter_cons, ha]
        rw [hf]
        calc processKeys L ak pk (v :: vs) convObj
            = processKeys L ak pk vs (processKeysStep L ak pk convObj v) := rfl
          _ = processKeys L ak pk vs convObj := by rw [hstep]
          _ = processKeys L ak pk (vs.filter (fun v => decide (v.address = ak))) convObj := ih _

/-! Helper lemmas about the ingestion fold. -/

theorem applyOutcome_keys (convObj : ConvObj) (roomId : JStr) (n : Int)
    (o : ContentOutcome) :
    (applyOutcome convObj roomId n o).1.keys = convObj.keys := by
  cases o <;> rfl

theorem processContent_keys (L : JsLib) (ak pk : JStr) (c : Content)
    (convObj : ConvObj) :
    (processContent L ak pk c convObj).1.keys =
      (processKeys L ak pk (contentEntries c) convObj).keys := by
  cases c with
  | keys a entries => rfl
  | msg a i emsg =>
      simp only [processContent]
      split
      · split <;> rfl
      · rfl
  | other => rfl

theorem ingestEntry_keys (L : JsLib) (ak pk roomId : JStr) (st : IngestState)
    (entry : LogEntry) :
    (ingestEntry L ak pk roomId st entry).conv.keys =
      (processKeys L ak pk (contentEntries entry.content) st.conv).keys := by
  unfold ingestEntry
  rw [applyOutcome_keys, processContent_keys]

theorem mem_foldl_ingest_keys (L : JsLib) (ak pk roomId : JStr)
    (log : List LogEntry) (st : IngestState) (k : JStr) :
    k ∈ (log.foldl (ingestEntry L ak pk roomId) st).conv.keys ↔
      k ∈ st.conv.keys ∨ k ∈ logKeys L ak pk log := by
  induction log generalizing st with
  | nil => simp [logKeys]
  | cons e es ih =>
      have hfold : (e :: es).foldl (ingestEntry L ak pk roomId) st =
          es.foldl (ingestEntry L ak pk roomId) (ingestEntry L ak pk roomId st e) := rfl
      rw [hfold, ih]
      have hmem : k ∈ (ingestEntry L ak pk roomId st e).conv.keys ↔
          k ∈ st.conv.keys ∨ k ∈ contentKeys L ak pk e.content := by
        rw [ingestEntry_keys, mem_processKeys]
        exact Iff.rfl
      rw [hmem]
      simp [logKeys, or_assoc]

theorem nodup_foldl_ingest_keys (L : JsLib) (ak pk roomId : JStr)
    (log : List LogEntry) (st : IngestState) (h : st.conv.keys.Nodup) :
    (log.foldl (ingestEntry L ak pk roomId) st).conv.keys.Nodup := by
  induction log generalizing st with
  | nil => exact h
  | cons e es ih =>
      refine ih _ ?_
      rw [ingestEntry_keys]
      exact nodup_processKeys L ak pk _ _ h

/-! Helper lemmas about the message codec and the send path. -/

theorem createEncrypted_eq (L : JsLib) (ak address : JStr) (convObj : ConvObj)
    (messageObj : Json) (now : Int) (ivStr : JStr)
    (haddr : L.isAddress address = true)
    (hvalid : validateMessage (injectCreated messageObj now) = true) :
    createEncrypted L ak address convObj messageObj now ivStr =
      Except.ok (some (EncMsg.mk
        (L.aesEncrypt
          (L.jsonStringify (injectCreated messageObj now) ++
            (L.shaB64 (L.jsonStringify (injectCreated messageObj now))).take 6)
          convObj.keys.head? ivStr)
        ivStr ak)) := by
  unfold createEncrypted
  dsimp only
  rw [haddr, hvalid]
  rfl

theorem decryptEmsg_roundtrip (L : JsLib) (ivStr key pt : JStr)
    (hpt : pt ≠ [])
    (hsha : 6 ≤ (L.shaB64 pt).length)
    (haes : L.aesDecryptUtf8 (L.aesEncrypt (pt ++ (L.shaB64 pt).take 6) (some key) ivStr)
      key ivStr = some (pt ++ (L.shaB64 pt).take 6)) :
    decryptEmsg L ivStr (L.aesEncrypt (pt ++ (L.shaB64 pt).take 6) (some key) ivStr) key =
      some pt := by
  unfold decryptEmsg
  rw [haes]
  dsimp only
  have htag : ((L.shaB64 pt).take 6).length = 6 := by
    rw [List.length_take]
    omega
  have hlen : (pt ++ (L.shaB64 pt).take 6).length = pt.length + 6 := by
    rw [List.length_append, htag]
  have hp : 0 < pt.length := List.length_pos.mpr hpt
  have hgt : 6 < (pt ++ (L.shaB64 pt).take 6).length := by omega
  have hne : pt ++ (L.shaB64 pt).take 6 ≠ [] := by
    intro hc
    rw [hc] at hlen
    simp at hlen
  have hsub : (pt ++ (L.shaB64 pt).take 6).length - 6 = pt.length := by omega
  have htake : (pt ++ (L.shaB64 pt).take 6).take ((pt ++ (L.shaB64 pt).take 6).length - 6) = pt := by
    rw [hsub]
    exact List.take_left pt _
  have hdrop : (pt ++ (L.shaB64 pt).take 6).drop ((pt ++ (L.shaB64 pt).take 6).length - 6) =
      (L.shaB64 pt).take 6 := by
    rw [hsub]
    exact List.drop_left pt _
  rw [if_pos ⟨hne, hgt⟩, htake, hdrop, if_pos rfl]

theorem startConv_posts_are_keys (L : JsLib) (E : Env) (convs : JStr → Option ConvObj)
    (remote encryptKey : JStr) (p : Post)
    (hp : p ∈ (startConv L E convs remote encryptKey).posts) :
    ∃ a es, p.content = Content.keys a es := by
  unfold startConv at hp
  cases hr : E.registry remote with
  | none =>
      rw [hr] at hp
      simp at hp
  | some entry =>
      rw [hr] at hp
      dsimp only at hp
      split at hp
      · dsimp only [addRoomMsg] at hp
        split at hp
        · dsimp only at hp
          rcases List.mem_singleton.mp hp with rfl
          exact ⟨_, _, rfl⟩
        · dsimp only at hp
          rcases List.mem_singleton.mp hp with rfl
          exact ⟨_, _, rfl⟩
      · simp at hp

/-! The claims. -/

/-- C1: the claim says a live entry for a known room is processed exactly
when its index is `lastConversationIndex + 1` and otherwise (gap or
duplicate) discarded with a bulk reload of the room. The code instead
compares the incoming index against `convObj.conversationIndex + 1`,
where `conversationIndex` is a field no code path ever assigns, so the
comparison is against `NaN` and every entry is processed: at a live
entry with index 3 for a room whose last ingested index is 5, no bulk
reload is triggered and the entry's content is processed, rewriting
`lastConversationIndex` to 3 and `messageCount` to 4. -/
theorem c1_stale_live_entry_is_processed_not_reloaded :
    (onMessageUpdate libTriv addrA (jstr ("PK")) convsA entryA).bulkLoads = [] ∧
    (onMessageUpdate libTriv addrA (jstr ("PK")) convsA entryA).convs roomA =
      some { convA with lastConversationIndex := some 3, messageCount := some 4 } :=
  ⟨rfl, rfl⟩

/-- C2: the claim says `messageCount` and `lastConversationIndex` never
move backwards. In `onMessageUpdate` the gap test compares against the
never-assigned `conversationIndex` field (`NaN`), so a replayed live
entry with index 0 for a room whose `messageCount` is 2 and
`lastConversationIndex` is 1 is accepted and both fields regress, to 1
and 0 respectively. -/
theorem c2_live_entry_moves_indices_backwards :
    ((convsB roomA).map ConvObj.messageCount = some (some 2) ∧
     (convsB roomA).map ConvObj.lastConversationIndex = some (some 1)) ∧
    (((onMessageUpdate libTriv addrA (jstr ("PK")) convsB entryB).convs roomA).map
        ConvObj.messageCount = some (some 1) ∧
     ((onMessageUpdate libTriv addrA (jstr ("PK")) convsB entryB).convs roomA).map
        ConvObj.lastConversationIndex = some (some 0)) :=
  ⟨⟨rfl, rfl⟩, ⟨rfl, rfl⟩⟩

/-- C4: `decryptEmsg` returns a plaintext prefix exactly when the AES
decryption read as UTF-8 yields a text of length strictly greater than 6
whose final 6 characters equal the first 6 base64 characters of SHA-1 of
the prefix; in every other case (decryption read fails, length at most
6, or tag mismatch) it returns `undefined`. -/
theorem c4_decryptEmsg_tag_characterization (L : JsLib) (ivStr msg key p : JStr) :
    decryptEmsg L ivStr msg key = some p ↔
      ∃ s, L.aesDecryptUtf8 msg key ivStr = some s ∧ 6 < s.length ∧
        p = s.take (s.length - 6) ∧
        s.drop (s.length - 6) = (L.shaB64 (s.take (s.length - 6))).take 6 := by
  unfold decryptEmsg
  cases h : L.aesDecryptUtf8 msg key ivStr with
  | none =>
      simp
  | some s =>
      dsimp only
      constructor
      · intro hp
        by_cases hc : s ≠ [] ∧ 6 < s.length
        · rw [if_pos hc] at hp
          by_cases htag : s.drop (s.length - 6) = (L.shaB64 (s.take (s.length - 6))).take 6
          · rw [if_pos htag] at hp
            injection hp with hp2
            exact ⟨s, rfl, hc.2, hp2.symm, htag⟩
          · rw [if_neg htag] at hp
            cases hp
        · rw [if_neg hc] at hp
          cases hp
      · rintro ⟨s2, hs2, hlen, hp, htag⟩
        injection hs2 with hss
        subst hss
        have hne : s ≠ [] := by
          intro hc
          rw [hc] at hlen
          simp at hlen
        rw [if_pos ⟨hne, hlen⟩, if_pos htag, hp]

/-- C4 witness: at a decryption that reads as `helloABCDEF` with
`first6(base64(SHA1(hello))) = ABCDEF`, `decryptEmsg` returns `hello`. -/
theorem c4_witness :
    decryptEmsg libTagged (jstr ("IV")) (jstr ("CT")) (jstr ("K")) = some (jstr ("hello")) :=
  (c4_decryptEmsg_tag_characterization libTagged (jstr ("IV")) (jstr ("CT")) (jstr ("K"))
      (jstr ("hello"))).mpr
    ⟨jstr ("helloABCDEF"), rfl, by decide, by decide, by decide⟩

/-- C5: `processKeys` adds keys only from entries whose `address` equals
the engine's wallet address: processing a keys envelope equals
processing only its entries addressed to this account, and an envelope
addressed exclusively to other participants leaves the room unchanged. -/
theorem c5_processKeys_ignores_foreign_entries (L : JsLib) (ak pk : JStr)
    (entries : List KeyEntry) (convObj : ConvObj) :
    processKeys L ak pk entries convObj =
      processKeys L ak pk (entries.filter (fun v => decide (v.address = ak))) convObj ∧
    ((∀ v ∈ entries, v.address ≠ ak) → processKeys L ak pk entries convObj = convObj) := by
  refine ⟨processKeys_filter_addressed L ak pk entries convObj, fun h => ?_⟩
  have hf : entries.filter (fun v => decide (v.address = ak)) = [] := by
    rw [List.filter_eq_nil_iff]
    intro a ha
    simpa using h a ha
  rw [processKeys_filter_addressed L ak pk entries convObj, hf]
  rfl

/-- C5 witness: a keys envelope addressed only to the other participant
leaves the local room's key list unchanged, even under a library whose
unwrap always succeeds. -/
theorem c5_witness :
    processKeys libEcho addrA (jstr ("PK")) entriesOther convOneKey = convOneKey :=
  (c5_processKeys_ignores_foreign_entries libEcho addrA (jstr ("PK")) entriesOther
    convOneKey).2 (by decide)

/-- C6: the key list stays duplicate-free — `processKeys` preserves
`Nodup`, processing the same announcement twice equals processing it
once, and every room built by a bulk load has a duplicate-free key
list. -/
theorem c6_keys_deduplicated (L : JsLib) (ak pk roomId : JStr)
    (entries : List KeyEntry) (convObj : ConvObj) (log : List LogEntry) :
    (convObj.keys.Nodup → (processKeys L ak pk entries convObj).keys.Nodup) ∧
    processKeys L ak pk entries (processKeys L ak pk entries convObj) =
      processKeys L ak pk entries convObj ∧
    (bulkIngest L ak pk roomId log).conv.keys.Nodup := by
  refine ⟨fun h => nodup_processKeys L ak pk entries convObj h,
    processKeys_idem L ak pk entries convObj, ?_⟩
  exact nodup_foldl_ingest_keys L ak pk roomId log _ List.nodup_nil

/-- C6 witness: an envelope announcing the same key twice to this account
yields a duplicate-free key list, and reprocessing it changes nothing. -/
theorem c6_witness :
    (processKeys libEcho addrA (jstr ("PK")) entriesMine freshConv).keys.Nodup ∧
    processKeys libEcho addrA (jstr ("PK")) entriesMine
        (processKeys libEcho addrA (jstr ("PK")) entriesMine freshConv) =
      processKeys libEcho addrA (jstr ("PK")) entriesMine freshConv :=
  ⟨(c6_keys_deduplicated libEcho addrA (jstr ("PK")) (jstr ("R")) entriesMine freshConv []).1
      List.nodup_nil,
   (c6_keys_deduplicated libEcho addrA (jstr ("PK")) (jstr ("R")) entriesMine freshConv []).2.1⟩

/-- C8: a `msg` envelope whose decryption succeeds but whose payload
fails JSON parsing or schema validation (`decryptMessage` returns the
`Invalid message object` error) fires neither the `onMessage` nor the
`onEncrypted` callback, so no `msg` or `emsg` event is emitted for that
entry. -/
theorem c8_invalid_message_silently_dropped (L : JsLib)
    (ak pk address i emsg roomId : JStr) (convObj : ConvObj) (n : Int)
    (h : decryptMessage L i emsg convObj = .error INVALID_MESSAGE_OBJECT) :
    processContent L ak pk (.msg address i emsg) convObj =
      (convObj, ContentOutcome.silent) ∧
    (applyOutcome (processContent L ak pk (.msg address i emsg) convObj).1 roomId n
        (processContent L ak pk (.msg address i emsg) convObj).2).2 = [] := by
  have hne : INVALID_MESSAGE_OBJECT ≠ COULD_NOT_DECRYPT := by decide
  have hpc : processContent L ak pk (.msg address i emsg) convObj =
      (convObj, ContentOutcome.silent) := by
    simp only [processContent, h]
    rw [if_neg hne]
  refine ⟨hpc, ?_⟩
  rw [hpc]
  rfl

/-- C8 witness: a payload that decrypts to a correctly tagged text whose
prefix fails JSON parsing is dropped without firing a callback. -/
theorem c8_witness :
    processContent libBadJson addrA (jstr ("PK"))
        (Content.msg addrB (jstr ("IV")) (jstr ("CT"))) convOneKey =
      (convOneKey, ContentOutcome.silent) ∧
    (applyOutcome (processContent libBadJson addrA (jstr ("PK"))
        (Content.msg addrB (jstr ("IV")) (jstr ("CT"))) convOneKey).1 roomA 7
      (processContent libBadJson addrA (jstr ("PK"))
        (Content.msg addrB (jstr ("IV")) (jstr ("CT"))) convOneKey).2).2 = [] :=
  c8_invalid_message_silently_dropped libBadJson addrA (jstr ("PK")) addrB (jstr ("IV"))
    (jstr ("CT")) roomA convOneKey 7 rfl

/-- C3: for a message object that satisfies the schema once `created` is
stamped, and a conversation object whose key list starts with the
primary key `createEncrypted` uses (`convObj.keys[0]`), decrypting the
produced envelope with the same conversation object returns
`{content: m'}` where `m'` is the caller's object with `created` set to
the encryption time. The hypotheses state the laws of the external
primitives at this message: AES decryption inverts AES encryption under
the same key and IV, SHA-1 in base64 is at least 6 characters long, the
serialized message is nonempty, and `JSON.parse` inverts
`JSON.stringify`. -/
theorem c3_encrypt_decrypt_roundtrip (L : JsLib) (ak address : JStr)
    (convObj : ConvObj) (messageObj : Json) (now : Int) (ivStr K : JStr)
    (rest : List JStr)
    (hkeys : convObj.keys = K :: rest)
    (haddr : L.isAddress address = true)
    (hvalid : validateMessage (injectCreated messageObj now) = true)
    (hlen : L.jsonStringify (injectCreated messageObj now) ≠ [])
    (hsha : 6 ≤ (L.shaB64 (L.jsonStringify (injectCreated messageObj now))).length)
    (haes : ∀ pt iv k, L.aesDecryptUtf8 (L.aesEncrypt pt (some k) iv) k iv = some pt)
    (hjson : L.jsonParse (L.jsonStringify (injectCreated messageObj now)) =
      some (injectCreated messageObj now)) :
    ∃ enc, createEncrypted L ak address convObj messageObj now ivStr = .ok (some enc) ∧
      enc.i = ivStr ∧ enc.address = ak ∧
      decryptMessage L enc.i enc.emsg convObj = .content (injectCreated messageObj now) := by
  have henc := createEncrypted_eq L ak address convObj messageObj now ivStr haddr hvalid
  rw [hkeys] at henc
  refine ⟨_, henc, rfl, rfl, ?_⟩
  dsimp only
  unfold decryptMessage
  rw [hkeys]
  have hdec := decryptEmsg_roundtrip L ivStr K
    (L.jsonStringify (injectCreated messageObj now)) hlen hsha
    (haes (L.jsonStringify (injectCreated messageObj now) ++
      (L.shaB64 (L.jsonStringify (injectCreated messageObj now))).take 6) ivStr K)
  unfold decryptLoop
  simp only [List.head?_cons]
  rw [hdec]
  dsimp only
  rw [hjson]
  dsimp only
  rw [hvalid]
  rfl

/-- C3 witness: the round trip at the message `{created: 7}` under a
library satisfying the primitive laws at that message. -/
theorem c3_witness :
    ∃ enc, createEncrypted libRound addrA addrB convOneKey (Json.obj []) 7
        (jstr ("IV")) = .ok (some enc) ∧
      enc.i = jstr ("IV") ∧ enc.address = addrA ∧
      decryptMessage libRound enc.i enc.emsg convOneKey =
        .content (injectCreated (Json.obj []) 7) :=
  c3_encrypt_decrypt_roundtrip libRound addrA addrB convOneKey (Json.obj []) 7
    (jstr ("IV")) (jstr ("K0")) [] rfl rfl (by decide) (by decide) (by decide)
    (fun _ _ _ => rfl) rfl

/-- C7 counterexample: the claim says `createOutOfBandMessage` assigns
`to = myAddress`, the sender's own checksummed wallet address. At a
concrete run (sender `0xAAAA`, recipient `0xBBBB`, identity
checksumming) the returned envelope's `to` field is `0xBBBB`, the
recipient, which differs from the sender's checksummed address. -/
theorem c7_counterexample :
    (match createOutOfBandMessage libTriv envAB convsEmpty addrB (Json.obj []) 5
        (jstr ("IV")) (jstr ("EK")) with
     | .ok r => r.ret.map (fun m => m.«to»)
     | .error _ => none) = some addrB ∧
    addrB ≠ libTriv.toChecksumAddress envAB.account_key :=
  ⟨rfl, by decide⟩

/-- C7 amended: `createOutOfBandMessage` returns the encrypted `msg`
envelope extended with a `to` field without posting it (its only posts
are the `keys` envelope `startConv` may publish), and it assigns
`to = toChecksumAddress(remoteEthAddress)` — the *recipient's*
checksummed address (the source stores it in a variable misleadingly
named `myAddress`), not the sender's. -/
theorem c7_out_of_band_to_is_recipient (L : JsLib) (E : Env)
    (convs : JStr → Option ConvObj) (address : JStr) (messageObj : Json)
    (now : Int) (ivStr encryptKey : JStr) (r : OOBResult)
    (h : createOutOfBandMessage L E convs address messageObj now ivStr encryptKey =
      .ok r) :
    (∀ m ∈ r.ret, m.«to» = L.toChecksumAddress (L.toChecksumAddress address)) ∧
    (∀ p ∈ r.posts, ∃ a es, p.content = Content.keys a es) := by
  have hposts := fun p hp =>
    startConv_posts_are_keys L E convs (L.toChecksumAddress address) encryptKey p hp
  unfold createOutOfBandMessage at h
  by_cases ha : L.isAddress address = false
  · rw [if_pos ha] at h
    exact (Except.noConfusion h)
  · rw [if_neg ha] at h
    dsimp only at h
    cases hconv : (startConv L E convs (L.toChecksumAddress address) encryptKey).conv with
    | none =>
        rw [hconv] at h
        dsimp only at h
        injection h with h2
        subst h2
        refine ⟨fun m hm => ?_, fun p hp => hposts p hp⟩
        simp at hm
    | some convObj =>
        rw [hconv] at h
        dsimp only at h
        cases hce : createEncrypted L E.account_key (L.toChecksumAddress address) convObj
            messageObj now ivStr with
        | error e =>
            rw [hce] at h
            exact (Except.noConfusion h)
        | ok oe =>
            rw [hce] at h
            cases oe with
            | none =>
                dsimp only at h
                injection h with h2
                subst h2
                refine ⟨fun m hm => ?_, fun p hp => hposts p hp⟩
                simp at hm
            | some enc =>
                dsimp only at h
                injection h with h2
                subst h2
                refine ⟨fun m hm => ?_, fun p hp => hposts p hp⟩
                simp only [Option.mem_def, Option.some.injEq] at hm
                subst hm
                rfl

/-- C7 witness: the amended claim at the concrete out-of-band run. -/
theorem c7_witness :
    (∀ m ∈ oobW.ret, m.«to» = libTriv.toChecksumAddress (libTriv.toChecksumAddress addrB)) ∧
    (∀ p ∈ oobW.posts, ∃ a es, p.content = Content.keys a es) :=
  c7_out_of_band_to_is_recipient libTriv envAB convsEmpty addrB (Json.obj []) 5
    (jstr ("IV")) (jstr ("EK")) oobW rfl

/-- C9: for a remote wallet address with no registry entry, `startConv`
returns `undefined` without issuing any POST and without emitting any
event, and `sendConvMessage` to that (valid, non-roomId) address
likewise returns without posting a message. -/
theorem c9_unregistered_recipient_no_post (L : JsLib) (E : Env)
    (convs : JStr → Option ConvObj) (remote encryptKey : JStr)
    (roomIdOrAddress : JStr) (messageObj : Json) (now : Int) (ivStr : JStr)
    (h1 : E.registry remote = none)
    (h2 : E.registry (L.toChecksumAddress roomIdOrAddress) = none)
    (h3 : isRoomId roomIdOrAddress = false)
    (h4 : L.isAddress roomIdOrAddress = true) :
    startConv L E convs remote encryptKey = { conv := none, posts := [], events := [] } ∧
    sendConvMessage L E convs false roomIdOrAddress messageObj now ivStr encryptKey =
      .ok { ret := none, posts := [], events := [] } := by
  have hstart : ∀ r ek, E.registry r = none →
      startConv L E convs r ek = { conv := none, posts := [], events := [] } := by
    intro r ek hr
    unfold startConv
    rw [hr]
  refine ⟨hstart remote encryptKey h1, ?_⟩
  have hsc := hstart (L.toChecksumAddress roomIdOrAddress) encryptKey h2
  unfold sendConvMessage
  simp [h3, h4, hsc]

/-- C9 witness: the claim at a concrete engine with an empty registry. -/
theorem c9_witness :
    startConv libTriv envNoReg convsEmpty addrB (jstr ("EK")) =
      { conv := none, posts := [], events := [] } ∧
    sendConvMessage libTriv envNoReg convsEmpty false addrB (Json.obj []) 5
        (jstr ("IV")) (jstr ("EK")) =
      .ok { ret := none, posts := [], events := [] } :=
  c9_unregistered_recipient_no_post libTriv envNoReg convsEmpty addrB (jstr ("EK"))
    addrB (Json.obj []) 5 (jstr ("IV")) rfl rfl (by decide) rfl

/-- C10: a bulk load rebuilds the room from a fresh object, so the
resulting room state is exactly the ingest of the fetched log starting
from empty key and message lists — independent of whatever was
previously stored for that room — and its key list holds exactly the
keys recovered from `keys` entries addressed to this account within the
fetched log. -/
theorem c10_getRoom_resets_room_state (L : JsLib) (ak pk roomId : JStr)
    (log : List LogEntry) (convs convs2 : JStr → Option ConvObj) :
    (getRoom L ak pk convs roomId log).1 roomId =
      some (bulkIngest L ak pk roomId log).conv ∧
    (getRoom L ak pk convs roomId log).1 roomId =
      (getRoom L ak pk convs2 roomId log).1 roomId ∧
    (∀ k, k ∈ (bulkIngest L ak pk roomId log).conv.keys ↔ k ∈ logKeys L ak pk log) := by
  have h1 : ∀ cs : JStr → Option ConvObj, (getRoom L ak pk cs roomId log).1 roomId =
      some (bulkIngest L ak pk roomId log).conv := by
    intro cs
    unfold getRoom updateConvs
    dsimp only
    rw [if_pos rfl]
  refine ⟨h1 convs, (h1 convs).trans (h1 convs2).symm, fun k => ?_⟩
  have hmem := mem_foldl_ingest_keys L ak pk roomId log { conv := freshConv, events := [] } k
  unfold bulkIngest
  rw [hmem]
  simp [freshConv]

/-- C10 witness: a bulk load of a one-entry log (a keys envelope wrapping
one key for this account) over a prior room state holding a different
key yields a room whose key list is exactly the recovered key. -/
theorem c10_witness :
    (getRoom libEcho addrA (jstr ("PK")) convsA roomA
        [{ conversationId := roomA, conversationIndex := 0,
           content := Content.keys addrA entriesMine }]).1 roomA =
      some (bulkIngest libEcho addrA (jstr ("PK")) roomA
        [{ conversationId := roomA, conversationIndex := 0,
           content := Content.keys addrA entriesMine }]).conv ∧
    jstr ("K1") ∈ (bulkIngest libEcho addrA (jstr ("PK")) roomA
        [{ conversationId := roomA, conversationIndex := 0,
           content := Content.keys addrA entriesMine }]).conv.keys :=
  ⟨(c10_getRoom_resets_room_state libEcho addrA (jstr ("PK")) roomA
      [{ conversationId := roomA, conversationIndex := 0,
         content := Content.keys addrA entriesMine }] convsA convsEmpty).1,
   ((c10_getRoom_resets_room_state libEcho addrA (jstr ("PK")) roomA
      [{ conversationId := roomA, conversationIndex := 0,
         content := Content.keys addrA entriesMine }] convsA convsEmpty).2.2
      (jstr ("K1"))).mpr (by decide)⟩
